import Mathlib

/-!
# Verification of `react-hooks-use-drawing-canvas`

A shallow embedding of `src/index.ts`, which contains two evolutionary drafts
of a single React hook `useDrawingCanvas`:

* draft 1 (lines 53-90): an inline `setTimeout` / `clearTimeout` layout effect
  whose returned cleanup closure runs `clearTimeout(timeout)` and then
  `if (cleanUp !== null) { cleanUp() }`;
* draft 2 (lines 121-205): the same hook built on a `debounceDraw` wrapper
  whose returned cancel closure runs `clearTimeout(timeout)`, sets
  `canceled = true`, and then evaluates the bare expression statement
  `if (cleanUp) { cleanUp }` (note: the reference is *not called* — the
  source is missing the call parentheses).

We embed (a) the `debounceDraw` closure in isolation as a small state machine,
and (b) the whole hook (both drafts) as a timed event machine driven by the
hosting framework's lifecycle events (mount, resize reports from the external
size observer, element identity changes, unmount) plus the platform timer.
JavaScript timers are modelled by an explicit pending-invocation record that
fires when time advances past its deadline; `clearTimeout` removes it.
React's guarantee that a layout effect's cleanup runs before the effect body
re-runs (and at unmount) is modelled by running the draft's cleanup closure
at the start of every redraw cycle and at teardown.
-/

namespace DrawingCanvas

/-- The possible JavaScript values of the `cleanUp` variable captured by a
`debounceDraw` closure: `null`, `undefined`, or a function value. -/
inductive JSVal
  | nullv
  | undefv
  | fnv
deriving DecidableEq

/-- State of one `debounceDraw(draw, time)` call (src/index.ts lines 121-143):
the `canceled` flag, whether `clearTimeout` has been called on the single
timer, whether the timer already fired, the closure's `cleanUp` variable
(`let cleanUp: void | (() => void)` starts out `undefined`), and observation
counters for calls to `draw` and to the captured clean-up routine. -/
structure DebounceState where
  canceled : Bool
  timerCleared : Bool
  fired : Bool
  cleanUp : JSVal
  drawCalls : Nat
  cleanUpCalls : Nat
deriving DecidableEq

/-- The state right after `debounceDraw` returns: timer scheduled, nothing
fired, nothing cancelled. -/
def debounceInit : DebounceState :=
  { canceled := false, timerCleared := false, fired := false,
    cleanUp := JSVal.undefv, drawCalls := 0, cleanUpCalls := 0 }

/-- The platform timer expiring (the `setTimeout` callback, lines 128-132).
The callback can only run if `clearTimeout` has not been called and it has
not already run; it then checks the `canceled` flag and, if clear, runs
`cleanUp = draw()`.  `ret` tells whether `draw` returns a clean-up routine
(a function value) or returns `undefined`. -/
def debounceFire (ret : Bool) (s : DebounceState) : DebounceState :=
  if s.timerCleared || s.fired then s
  else if s.canceled then { s with fired := true }
  else
    { s with fired := true, drawCalls := s.drawCalls + 1,
             cleanUp := if ret then JSVal.fnv else JSVal.undefv }

/-- The cancel closure returned by `debounceDraw` (lines 134-142):
`clearTimeout(timeout)`, `canceled = true`, and then the statement
`if (cleanUp) { cleanUp }`, which evaluates the reference without calling
it — so `cleanUpCalls` is unchanged. -/
def debounceCancel (s : DebounceState) : DebounceState :=
  { s with timerCleared := true, canceled := true }

/-- The two things the environment can do to a live `debounceDraw` call:
let the timer expire, or invoke the returned cancel closure. -/
inductive DebounceOp
  | fire
  | cancel

/-- One environment action on a `debounceDraw` call. -/
def debounceStep (ret : Bool) (s : DebounceState) : DebounceOp → DebounceState
  | DebounceOp.fire => debounceFire ret s
  | DebounceOp.cancel => debounceCancel s

/-- A whole lifetime of a `debounceDraw` call: any sequence of timer
expirations and cancel invocations. -/
def debounceRun (ret : Bool) (s : DebounceState) (ops : List DebounceOp) : DebounceState :=
  ops.foldl (debounceStep ret) s

theorem debounceRun_cons (ret : Bool) (s : DebounceState) (op : DebounceOp)
    (ops : List DebounceOp) :
    debounceRun ret s (op :: ops) = debounceRun ret (debounceStep ret s op) ops := rfl

/-- Invariant used for the at-most-once property of `debounceDraw`. -/
def drawOnce (s : DebounceState) : Prop :=
  s.drawCalls ≤ 1 ∧ (s.fired = false → s.drawCalls = 0)

theorem drawOnce_step (ret : Bool) (s : DebounceState) (op : DebounceOp)
    (h : drawOnce s) : drawOnce (debounceStep ret s op) := by
  obtain ⟨h1, h2⟩ := h
  cases op with
  | fire =>
    simp only [debounceStep, debounceFire]
    split
    · exact ⟨h1, h2⟩
    · next hguard =>
      have hnf : s.fired = false := by
        rcases Bool.eq_false_or_eq_true s.fired with hf | hf
        · simp [hf] at hguard
        · exact hf
      split
      · exact ⟨h1, fun h => by simp at h⟩
      · have h0 : s.drawCalls = 0 := h2 hnf
        exact ⟨by simp [h0], fun h => by simp at h⟩
  | cancel => exact ⟨h1, h2⟩

theorem drawOnce_run (ret : Bool) (s : DebounceState) (ops : List DebounceOp)
    (h : drawOnce s) : drawOnce (debounceRun ret s ops) := by
  induction ops generalizing s with
  | nil => exact h
  | cons op ops ih => exact ih _ (drawOnce_step ret s op h)

/-- C10: Each call to `debounceDraw` invokes its `draw` argument at most once
over the whole lifetime of that call, whatever sequence of timer expiration
and cancel invocations the environment performs. -/
theorem c10_draw_at_most_once (ret : Bool) (ops : List DebounceOp) :
    (debounceRun ret debounceInit ops).drawCalls ≤ 1 :=
  (drawOnce_run ret debounceInit ops ⟨by simp [debounceInit], fun _ => rfl⟩).1

/-- C9: The cancel closure returned by `debounceDraw` is idempotent, and
invoking it — on a pending, already-fired, or already-cancelled call —
causes no additional `draw` call and no clean-up call; moreover the timer of
a cancelled call can never fire the drawing routine afterwards. -/
theorem c9_cancel_idempotent (ret : Bool) (s : DebounceState) :
    debounceCancel (debounceCancel s) = debounceCancel s ∧
    (debounceCancel s).drawCalls = s.drawCalls ∧
    (debounceCancel s).cleanUpCalls = s.cleanUpCalls ∧
    debounceFire ret (debounceCancel s) = debounceCancel s := by
  refine ⟨rfl, rfl, rfl, ?_⟩
  simp [debounceFire, debounceCancel]

/-! ## The whole hook as a timed event machine

Both drafts of `useDrawingCanvas` are embedded as one machine parameterised
by which draft's effect-cleanup closure is used.  Time is in the source's
milliseconds; the quiescence delay is the literal `50` passed to
`setTimeout`.  Canvas elements are identified by abstract numeric ids; the
drawing surface obtained by `getContext('2d')` is identified with the id of
the element it was derived from. -/

/-- Which draft of `useDrawingCanvas` is running: the inline
`setTimeout`/`clearTimeout` effect (lines 64-87) or the version built on the
`debounceDraw` wrapper (lines 185-201). -/
inductive Draft
  | inlineDraft
  | debounceDraft
deriving DecidableEq

/-- The user's actual motion preference, the two values the
`prefers-reduced-motion` media feature can take. -/
inductive MPref
  | noPreference
  | reduce
deriving DecidableEq

/-- Platform semantics of `window.matchMedia(query).matches` restricted to
the `prefers-reduced-motion` feature: a query matches exactly when it names
the active preference value; a query with an unrecognized value (such as a
typo) matches nothing. -/
def mediaMatches (query : String) (pref : MPref) : Bool :=
  match pref with
  | MPref.noPreference => decide (query = "(prefers-reduced-motion: no-preference)")
  | MPref.reduce => decide (query = "(prefers-reduced-motion: reduce)")

/-- The media-query string literal in the source (lines 75 and 196),
including its `no-preferece` typo. -/
def sourceQuery : String := "(prefers-reduced-motion: no-preferece)"

/-- The environment the hook runs in: the user's motion preference as a
function of time, and whether the caller's drawing method returns a clean-up
routine (`ret = true`) or returns `undefined`. -/
structure Env where
  motionPref : Nat → MPref
  ret : Bool

/-- The `prefersReducedMotion` prop computed by the source at the moment the
drawing method runs: `!window.matchMedia(query).matches`. -/
def prmAt (query : String) (env : Env) (t : Nat) : Bool :=
  !(mediaMatches query (env.motionPref t))

/-- A pending invocation: the single scheduled `setTimeout` of the current
effect, identified by a token `id`, with its deadline and the `width` and
`height` captured by the effect closure. -/
structure Pend where
  id : Nat
  deadline : Nat
  w : Nat
  h : Nat
deriving DecidableEq

/-- The value of the current effect closure's `cleanUp` variable:
`null` (draft 1 initialises `let cleanUp = null`; before any fire),
`undefined` (the drawing method ran and returned nothing), or the clean-up
function captured from the invocation with the given token. -/
inductive Held
  | hnull
  | hundef
  | hfn (id : Nat)
deriving DecidableEq

/-- One observed call of the drawing method: the invocation token, the time
it ran, and the props bundle it received. -/
structure DrawCall where
  id : Nat
  time : Nat
  w : Nat
  h : Nat
  prm : Bool
deriving DecidableEq

/-- The state of one `useDrawingCanvas` instance.

`elem` is `ref.current`; `derived` records whether the `useEffect` with
dependency array `[ref]` has run (it runs exactly once, after the first
commit, because the ref object never changes identity); `ctx` is the
`context` state variable; `canvasW`/`canvasH` are the canvas backing-store
dimensions; `width`/`height` the observed size reported by `useCanvasSize`;
`pending` the scheduled timeout of the current layout effect; `held` the
current closure's `cleanUp` variable; `crashed` records that draft 1's
cleanup closure attempted `cleanUp()` on `undefined` (a TypeError that the
hook does not catch); `torn` that the component unmounted.  `draws` and
`cleanups` log every drawing-method invocation and every clean-up-routine
invocation (time and originating invocation token). -/
structure AState where
  time : Nat
  elem : Option Nat
  derived : Bool
  ctx : Option Nat
  canvasW : Nat
  canvasH : Nat
  width : Nat
  height : Nat
  pending : Option Pend
  held : Held
  crashed : Bool
  torn : Bool
  nextId : Nat
  draws : List DrawCall
  cleanups : List (Nat × Nat)
deriving DecidableEq

/-- The freshly rendered hook: nothing bound, nothing derived, observed size
initially `0 × 0`. -/
def initState : AState :=
  { time := 0, elem := none, derived := false, ctx := none,
    canvasW := 0, canvasH := 0, width := 0, height := 0,
    pending := none, held := Held.hnull, crashed := false, torn := false,
    nextId := 0, draws := [], cleanups := [] }

/-- The platform timer: if the scheduled timeout's deadline has been reached
by time `t`, its callback runs — the drawing method is invoked with the
captured props and the `prefersReducedMotion` value read at that moment, and
its return value is stored in the closure's `cleanUp` variable. -/
def fireIfDue (query : String) (env : Env) (s : AState) (t : Nat) : AState :=
  match s.pending with
  | some p =>
      if p.deadline ≤ t then
        { s with pending := none,
                 draws := s.draws ++
                   [⟨p.id, p.deadline, p.w, p.h, prmAt query env p.deadline⟩],
                 held := if env.ret then Held.hfn p.id else Held.hundef }
      else s
  | none => s

/-- Let wall-clock time advance to `t`, running the timer callback if its
deadline passes. -/
def advanceTo (query : String) (env : Env) (s : AState) (t : Nat) : AState :=
  { fireIfDue query env s t with time := max s.time t }

/-- The layout effect's cleanup closure, which React runs before re-running
the effect body and at unmount.

Draft 1 (lines 80-85): `clearTimeout(timeout); if (cleanUp !== null) { cleanUp() }`.
Note `undefined !== null` holds in JavaScript, so a drawing method that
returned `undefined` makes this closure call `undefined()` — a TypeError,
modelled by `crashed`.

Draft 2 (lines 134-142, the closure returned by `debounceDraw`):
`clearTimeout(timeout); canceled = true; if (cleanUp) { cleanUp }` — the
bare reference is evaluated but never called, so no clean-up is logged. -/
def effectCleanup (d : Draft) (s : AState) : AState :=
  match d with
  | Draft.inlineDraft =>
      match s.held with
      | Held.hnull => { s with pending := none }
      | Held.hfn j =>
          { s with pending := none, held := Held.hnull,
                   cleanups := s.cleanups ++ [(s.time, j)] }
      | Held.hundef => { s with pending := none, held := Held.hnull, crashed := true }
  | Draft.debounceDraft => { s with pending := none, held := Held.hnull }

/-- The layout effect body when `context` is set (lines 65-78 / 186-200):
assign the canvas backing dimensions from the current observed size, start a
fresh closure (`cleanUp` is `null` / `undefined`, never called before the
fire), and schedule the drawing method after the 50 ms quiescence delay with
the current `width` and `height`. -/
def cycleBody (s : AState) : AState :=
  { s with canvasW := s.width, canvasH := s.height,
           pending := some ⟨s.nextId, s.time + 50, s.width, s.height⟩,
           nextId := s.nextId + 1,
           held := Held.hnull }

/-- A full redraw cycle: React runs the previous effect's cleanup closure,
then (unless that closure threw) the new effect body. -/
def runCycle (d : Draft) (s : AState) : AState :=
  if (effectCleanup d s).crashed then effectCleanup d s
  else cycleBody (effectCleanup d s)

/-- External trigger events delivered by the hosting framework:

* `mount e` — first commit: the ref is bound to element `e` (or to nothing),
  the `[ref]` effect runs once and derives the context, and if a context was
  obtained the layout effect performs its first redraw cycle;
* `resize w h` — `useCanvasSize` reports an observed size; if it differs
  from the current one the layout effect's dependencies change and a redraw
  cycle runs (React skips the effect when the dependency values are equal);
* `setElem e` — the ref is re-pointed at a different element; nothing else
  happens, because the `useEffect` dependency array `[ref]` never changes;
* `unmount` — React runs the last effect's cleanup closure and the
  component is gone;
* `tick` — nothing happens; lets time pass so the timer can fire. -/
inductive Ev
  | mount (e : Option Nat)
  | resize (w : Nat) (h : Nat)
  | setElem (e : Option Nat)
  | unmount
  | tick
deriving DecidableEq

/-- Apply one framework event to the hook state. -/
def applyEv (d : Draft) (s : AState) : Ev → AState
  | Ev.mount e =>
      if s.crashed || s.torn || s.derived then s
      else
        match e with
        | some _ => runCycle d { s with elem := e, derived := true, ctx := e }
        | none => { s with elem := e, derived := true, ctx := e }
  | Ev.resize w h =>
      if s.crashed || s.torn then s
      else if w = s.width ∧ h = s.height then s
      else
        match s.ctx with
        | some _ => runCycle d { s with width := w, height := h }
        | none => { s with width := w, height := h }
  | Ev.setElem e => if s.crashed || s.torn then s else { s with elem := e }
  | Ev.unmount =>
      if s.crashed || s.torn then s
      else { effectCleanup d s with torn := true }
  | Ev.tick => s

/-- Process one timestamped event: time flows to the event's timestamp
(firing the timer if due), then the event itself is applied. -/
def stepT (d : Draft) (query : String) (env : Env) (s : AState)
    (te : Nat × Ev) : AState :=
  applyEv d (advanceTo query env s te.1) te.2

/-- Run a whole timestamped event trace. -/
def runT (d : Draft) (query : String) (env : Env) (s : AState)
    (tr : List (Nat × Ev)) : AState :=
  tr.foldl (stepT d query env) s

theorem runT_cons (d : Draft) (query : String) (env : Env) (s : AState)
    (te : Nat × Ev) (tr : List (Nat × Ev)) :
    runT d query env s (te :: tr) = runT d query env (stepT d query env s te) tr := rfl

/-- A convenient concrete environment for evaluations: the user has no
motion preference at any time, and the drawing method always returns a
clean-up routine. -/
def env0 : Env :=
  { motionPref := fun _ => MPref.noPreference, ret := true }

/-! ## Concrete traces exhibiting the clean-up defect and the stale surface -/

/-- C1: Refuted by the `debounceDraw` draft.  Mount a canvas at time 0; the
first invocation fires at time 50 and (since `env0.ret = true`) returns a
Cleanup Routine; a resize at time 60 schedules the next cycle, whose
invocation fires at time 110.  Two consecutive firings each returned a
Cleanup Routine, yet the clean-up log is empty — the first firing's Cleanup
Routine was invoked zero times, not exactly once, before the second firing,
because the cancel closure's `if (cleanUp) { cleanUp }` (line 140) evaluates
the reference without calling it.  The inline draft on the same trace
invokes it exactly once, at time 60, before the second firing at 110 — the
intended behaviour the claim and spec describe. -/
theorem c1_debounce_skips_cleanup_between_firings :
    env0.ret = true ∧
    (runT Draft.debounceDraft sourceQuery env0 initState
      [(0, Ev.mount (some 1)), (60, Ev.resize 300 150), (200, Ev.tick)]).draws =
      [⟨0, 50, 0, 0, true⟩, ⟨1, 110, 300, 150, true⟩] ∧
    (runT Draft.debounceDraft sourceQuery env0 initState
      [(0, Ev.mount (some 1)), (60, Ev.resize 300 150), (200, Ev.tick)]).cleanups = [] ∧
    (runT Draft.inlineDraft sourceQuery env0 initState
      [(0, Ev.mount (some 1)), (60, Ev.resize 300 150), (200, Ev.tick)]).cleanups =
      [(60, 0)] := by
  decide

/-- C4: Refuted by the `debounceDraw` draft.  Mount a canvas at time 0; the
invocation fires at time 50 and returns a Cleanup Routine; the component
unmounts at time 60.  Teardown does cancel the pending invocation and no
drawing-method call ever happens afterwards (a later resize and tick add no
draws), but the held Cleanup Routine is invoked zero times instead of
exactly once — again the missing call parentheses at line 140.  The inline
draft on the same trace invokes it exactly once, at time 60. -/
theorem c4_teardown_skips_cleanup :
    (runT Draft.debounceDraft sourceQuery env0 initState
      [(0, Ev.mount (some 1)), (60, Ev.unmount), (100, Ev.resize 300 150),
       (200, Ev.tick)]).draws = [⟨0, 50, 0, 0, true⟩] ∧
    (runT Draft.debounceDraft sourceQuery env0 initState
      [(0, Ev.mount (some 1)), (60, Ev.unmount), (100, Ev.resize 300 150),
       (200, Ev.tick)]).cleanups = [] ∧
    (runT Draft.debounceDraft sourceQuery env0 initState
      [(0, Ev.mount (some 1)), (60, Ev.unmount), (100, Ev.resize 300 150),
       (200, Ev.tick)]).pending = none ∧
    (runT Draft.debounceDraft sourceQuery env0 initState
      [(0, Ev.mount (some 1)), (60, Ev.unmount), (100, Ev.resize 300 150),
       (200, Ev.tick)]).torn = true ∧
    (runT Draft.inlineDraft sourceQuery env0 initState
      [(0, Ev.mount (some 1)), (60, Ev.unmount), (100, Ev.resize 300 150),
       (200, Ev.tick)]).cleanups = [(60, 0)] := by
  decide

/-- C5 counterexample: the two drafts are not behaviourally equivalent.
Mount a canvas at time 0 (the invocation fires at time 50 and returns a
Cleanup Routine), then resize at time 60: the inline draft invokes the
captured Cleanup Routine at time 60, while the `debounceDraw` draft never
invokes it, so the two drafts' clean-up invocation points differ on this
trigger sequence. -/
theorem c5_drafts_differ_on_cleanup :
    (runT Draft.inlineDraft sourceQuery env0 initState
      [(0, Ev.mount (some 1)), (60, Ev.resize 300 150)]).cleanups = [(60, 0)] ∧
    (runT Draft.debounceDraft sourceQuery env0 initState
      [(0, Ev.mount (some 1)), (60, Ev.resize 300 150)]).cleanups = [] ∧
    ¬((runT Draft.inlineDraft sourceQuery env0 initState
        [(0, Ev.mount (some 1)), (60, Ev.resize 300 150)]).cleanups =
      (runT Draft.debounceDraft sourceQuery env0 initState
        [(0, Ev.mount (some 1)), (60, Ev.resize 300 150)]).cleanups) := by
  decide

/-- C7 counterexample: the Drawing Surface does not track element-identity
changes.  Mount with element 1 bound, then re-point the ref at element 2:
the hook still holds the surface derived from element 1, because the
context-deriving `useEffect` has dependency array `[ref]` and the ref object
never changes identity, so the effect never re-runs.  The claim's
"the Drawing Surface corresponds to the most recently bound element" fails
at this input. -/
theorem c7_surface_not_rederived :
    (runT Draft.inlineDraft sourceQuery env0 initState
      [(0, Ev.mount (some 1)), (10, Ev.setElem (some 2))]).elem = some 2 ∧
    (runT Draft.inlineDraft sourceQuery env0 initState
      [(0, Ev.mount (some 1)), (10, Ev.setElem (some 2))]).ctx = some 1 ∧
    ¬((runT Draft.inlineDraft sourceQuery env0 initState
        [(0, Ev.mount (some 1)), (10, Ev.setElem (some 2))]).ctx =
      (runT Draft.inlineDraft sourceQuery env0 initState
        [(0, Ev.mount (some 1)), (10, Ev.setElem (some 2))]).elem) := by
  decide

/-! ## Frame lemmas: which fields each operation leaves alone -/

theorem fireIfDue_frame (q : String) (env : Env) (s : AState) (t : Nat) :
    (fireIfDue q env s t).elem = s.elem ∧
    (fireIfDue q env s t).derived = s.derived ∧
    (fireIfDue q env s t).ctx = s.ctx ∧
    (fireIfDue q env s t).canvasW = s.canvasW ∧
    (fireIfDue q env s t).canvasH = s.canvasH ∧
    (fireIfDue q env s t).width = s.width ∧
    (fireIfDue q env s t).height = s.height ∧
    (fireIfDue q env s t).crashed = s.crashed ∧
    (fireIfDue q env s t).torn = s.torn ∧
    (fireIfDue q env s t).nextId = s.nextId ∧
    (fireIfDue q env s t).cleanups = s.cleanups := by
  unfold fireIfDue
  rcases hp : s.pending with _ | p
  · simp
  · by_cases hd : p.deadline ≤ t <;> simp [hd]

theorem advanceTo_frame (q : String) (env : Env) (s : AState) (t : Nat) :
    (advanceTo q env s t).elem = s.elem ∧
    (advanceTo q env s t).derived = s.derived ∧
    (advanceTo q env s t).ctx = s.ctx ∧
    (advanceTo q env s t).canvasW = s.canvasW ∧
    (advanceTo q env s t).canvasH = s.canvasH ∧
    (advanceTo q env s t).width = s.width ∧
    (advanceTo q env s t).height = s.height ∧
    (advanceTo q env s t).crashed = s.crashed ∧
    (advanceTo q env s t).torn = s.torn ∧
    (advanceTo q env s t).nextId = s.nextId ∧
    (advanceTo q env s t).cleanups = s.cleanups := by
  have h := fireIfDue_frame q env s t
  unfold advanceTo
  exact ⟨h.1, h.2.1, h.2.2.1, h.2.2.2.1, h.2.2.2.2.1, h.2.2.2.2.2.1,
    h.2.2.2.2.2.2.1, h.2.2.2.2.2.2.2.1, h.2.2.2.2.2.2.2.2.1,
    h.2.2.2.2.2.2.2.2.2.1, h.2.2.2.2.2.2.2.2.2.2⟩

theorem effectCleanup_frame (d : Draft) (s : AState) :
    (effectCleanup d s).time = s.time ∧
    (effectCleanup d s).elem = s.elem ∧
    (effectCleanup d s).derived = s.derived ∧
    (effectCleanup d s).ctx = s.ctx ∧
    (effectCleanup d s).canvasW = s.canvasW ∧
    (effectCleanup d s).canvasH = s.canvasH ∧
    (effectCleanup d s).width = s.width ∧
    (effectCleanup d s).height = s.height ∧
    (effectCleanup d s).torn = s.torn ∧
    (effectCleanup d s).nextId = s.nextId ∧
    (effectCleanup d s).draws = s.draws ∧
    (effectCleanup d s).pending = none := by
  unfold effectCleanup
  cases d
  · cases s.held <;> simp
  · simp

theorem runCycle_frame (d : Draft) (s : AState) :
    (runCycle d s).time = s.time ∧
    (runCycle d s).elem = s.elem ∧
    (runCycle d s).derived = s.derived ∧
    (runCycle d s).ctx = s.ctx ∧
    (runCycle d s).width = s.width ∧
    (runCycle d s).height = s.height ∧
    (runCycle d s).torn = s.torn ∧
    (runCycle d s).draws = s.draws := by
  have h := effectCleanup_frame d s
  unfold runCycle
  split
  · exact ⟨h.1, h.2.1, h.2.2.1, h.2.2.2.1, h.2.2.2.2.2.2.1,
      h.2.2.2.2.2.2.2.1, h.2.2.2.2.2.2.2.2.1, h.2.2.2.2.2.2.2.2.2.2.1⟩
  · exact ⟨h.1, h.2.1, h.2.2.1, h.2.2.2.1, h.2.2.2.2.2.2.1,
      h.2.2.2.2.2.2.2.1, h.2.2.2.2.2.2.2.2.1, h.2.2.2.2.2.2.2.2.2.2.1⟩

theorem applyEv_draws (d : Draft) (s : AState) (ev : Ev) :
    (applyEv d s ev).draws = s.draws := by
  cases ev with
  | mount e =>
      simp only [applyEv]
      split
      · rfl
      · cases e
        · rfl
        · exact (runCycle_frame d _).2.2.2.2.2.2.2
  | resize w h =>
      simp only [applyEv]
      split
      · rfl
      · split
        · rfl
        · rcases hc : s.ctx with _ | c
          · simp only [hc]
          · simp only [hc]
            exact (runCycle_frame d _).2.2.2.2.2.2.2
  | setElem e =>
      simp only [applyEv]
      split <;> rfl
  | unmount =>
      simp only [applyEv]
      split
      · rfl
      · exact (effectCleanup_frame d s).2.2.2.2.2.2.2.2.2.2.1
  | tick => rfl

/-! ## The surface is derived exactly once, at mount -/

theorem applyEv_of_derived (d : Draft) (s : AState) (ev : Ev)
    (h : s.derived = true) :
    (applyEv d s ev).derived = true ∧ (applyEv d s ev).ctx = s.ctx := by
  cases ev with
  | mount e => simp [applyEv, h]
  | resize w h2 =>
      simp only [applyEv]
      split
      · exact ⟨h, rfl⟩
      · split
        · exact ⟨h, rfl⟩
        · split
          · have hf := runCycle_frame d { s with width := w, height := h2 }
            exact ⟨by rw [hf.2.2.1]; exact h, hf.2.2.2.1⟩
          · exact ⟨h, rfl⟩
  | setElem e =>
      simp only [applyEv]
      split <;> exact ⟨h, rfl⟩
  | unmount =>
      simp only [applyEv]
      split
      · exact ⟨h, rfl⟩
      · have hf := effectCleanup_frame d s
        exact ⟨by show (effectCleanup d s).derived = true; rw [hf.2.2.1]; exact h,
          by show (effectCleanup d s).ctx = s.ctx; exact hf.2.2.2.1⟩
  | tick => exact ⟨h, rfl⟩

theorem runT_of_derived (d : Draft) (q : String) (env : Env) (s : AState)
    (tr : List (Nat × Ev)) (h : s.derived = true) :
    (runT d q env s tr).derived = true ∧ (runT d q env s tr).ctx = s.ctx := by
  induction tr generalizing s with
  | nil => exact ⟨h, rfl⟩
  | cons te tr ih =>
      have h1 := advanceTo_frame q env s te.1
      have h2 := applyEv_of_derived d (advanceTo q env s te.1) te.2
        (by rw [h1.2.1]; exact h)
      rw [runT_cons]
      have h3 := ih (stepT d q env s te) h2.1
      refine ⟨h3.1, ?_⟩
      rw [h3.2]
      show (applyEv d (advanceTo q env s te.1) te.2).ctx = s.ctx
      rw [h2.2, h1.2.2.1]

/-- C7 (amended): the Drawing Surface is derived exactly once, from the
element bound at the initial mount.  For every draft and every subsequent
event trace — element-identity changes included — the surface the hook holds
is the one derived from the initially bound element; mounting with no
element bound (`e = none`) yields an absent surface that is never populated
afterwards. -/
theorem applyEv_mount (d : Draft) (s : AState) (e : Option Nat)
    (h1 : s.crashed = false) (h2 : s.torn = false) (h3 : s.derived = false) :
    (applyEv d s (Ev.mount e)).ctx = e ∧ (applyEv d s (Ev.mount e)).derived = true := by
  have hnc : ¬((s.crashed || s.torn || s.derived) = true) := by
    simp [h1, h2, h3]
  cases e with
  | none =>
      simp only [applyEv]
      rw [if_neg hnc]
      exact ⟨rfl, rfl⟩
  | some c =>
      simp only [applyEv]
      rw [if_neg hnc]
      have hf := runCycle_frame d { s with elem := some c, derived := true, ctx := some c }
      exact ⟨hf.2.2.2.1, hf.2.2.1⟩

theorem c7_surface_fixed_at_mount (d : Draft) (q : String) (env : Env)
    (e : Option Nat) (t : Nat) (tr : List (Nat × Ev)) :
    (runT d q env (stepT d q env initState (t, Ev.mount e)) tr).ctx = e := by
  have ha := advanceTo_frame q env initState t
  have hm := applyEv_mount d (advanceTo q env initState t) e
    (by rw [ha.2.2.2.2.2.2.2.1]; rfl) (by rw [ha.2.2.2.2.2.2.2.2.1]; rfl)
    (by rw [ha.2.1]; rfl)
  have hrun := runT_of_derived d q env (stepT d q env initState (t, Ev.mount e)) tr hm.2
  rw [hrun.2]
  exact hm.1

/-! ## C6: the `prefersReducedMotion` prop -/

theorem prmAt_source (env : Env) (t : Nat) : prmAt sourceQuery env t = true := by
  unfold prmAt mediaMatches
  cases hm : env.motionPref t <;> decide

/-- Every logged drawing-method call received the `prefersReducedMotion`
value read from the platform signal at the moment it ran. -/
def drawsPrmOk (q : String) (env : Env) (s : AState) : Prop :=
  ∀ dc ∈ s.draws, dc.prm = prmAt q env dc.time

theorem drawsPrmOk_step (d : Draft) (q : String) (env : Env) (s : AState)
    (te : Nat × Ev) (h : drawsPrmOk q env s) :
    drawsPrmOk q env (stepT d q env s te) := by
  obtain ⟨t, ev⟩ := te
  have h1 : drawsPrmOk q env (advanceTo q env s t) := by
    intro dc hdc
    have hdr : (advanceTo q env s t).draws = (fireIfDue q env s t).draws := rfl
    rw [hdr] at hdc
    unfold fireIfDue at hdc
    split at hdc
    · split at hdc
      · simp only [List.mem_append, List.mem_singleton] at hdc
        rcases hdc with hdc | hdc
        · exact h dc hdc
        · subst hdc
          rfl
      · exact h dc hdc
    · exact h dc hdc
  intro dc hdc
  rw [show (stepT d q env s (t, ev)).draws = (applyEv d (advanceTo q env s t) ev).draws
      from rfl, applyEv_draws] at hdc
  exact h1 dc hdc

theorem drawsPrmOk_run (d : Draft) (q : String) (env : Env) (s : AState)
    (tr : List (Nat × Ev)) (h : drawsPrmOk q env s) :
    drawsPrmOk q env (runT d q env s tr) := by
  induction tr generalizing s with
  | nil => exact h
  | cons te tr ih => exact ih _ (drawsPrmOk_step d q env s te h)

/-- C6: Whatever draft runs and whatever the user's motion preference does
over time, every drawing-method invocation receives the
`prefersReducedMotion` value computed from the platform motion-preference
signal at the moment the invocation actually fires (not at scheduling
time); and with the source's media-query string — which contains the
`no-preferece` typo — that value is `true` for every preference state, at
every firing. -/
theorem c6_reduced_motion_always_true (d : Draft) (q : String) (env : Env)
    (tr : List (Nat × Ev)) :
    ((runT d q env initState tr).draws.all
      fun dc => dc.prm == prmAt q env dc.time) = true ∧
    (q = sourceQuery →
      ((runT d q env initState tr).draws.all fun dc => dc.prm) = true) := by
  have h := drawsPrmOk_run d q env initState tr
    (by intro dc hdc; simp [initState] at hdc)
  constructor
  · rw [List.all_eq_true]
    intro dc hdc
    simp [h dc hdc]
  · intro hq
    rw [List.all_eq_true]
    intro dc hdc
    have hp := h dc hdc
    rw [hq] at hp
    rw [prmAt_source] at hp
    exact hp

/-- Witness for C6: a concrete run (mount a canvas at time 0, let the timer
fire at time 50) on the source's query string.  The run logs exactly one
drawing-method call, its `prefersReducedMotion` prop equals the signal read
at its firing time, and it is `true`. -/
theorem c6_reduced_motion_witness :
    (runT Draft.inlineDraft sourceQuery env0 initState
      [(0, Ev.mount (some 1)), (100, Ev.tick)]).draws.length = 1 ∧
    ((runT Draft.inlineDraft sourceQuery env0 initState
      [(0, Ev.mount (some 1)), (100, Ev.tick)]).draws.all
      fun dc => dc.prm == prmAt sourceQuery env0 dc.time) = true ∧
    ((runT Draft.inlineDraft sourceQuery env0 initState
      [(0, Ev.mount (some 1)), (100, Ev.tick)]).draws.all fun dc => dc.prm) = true :=
  ⟨by decide,
   (c6_reduced_motion_always_true Draft.inlineDraft sourceQuery env0
      [(0, Ev.mount (some 1)), (100, Ev.tick)]).1,
   (c6_reduced_motion_always_true Draft.inlineDraft sourceQuery env0
      [(0, Ev.mount (some 1)), (100, Ev.tick)]).2 rfl⟩

/-! ## C8: scheduled props always match the backing dimensions -/

theorem cycleBody_fields (s : AState) :
    (cycleBody s).pending = some ⟨s.nextId, s.time + 50, s.width, s.height⟩ ∧
    (cycleBody s).canvasW = s.width ∧
    (cycleBody s).canvasH = s.height ∧
    (cycleBody s).width = s.width ∧
    (cycleBody s).height = s.height ∧
    (cycleBody s).ctx = s.ctx ∧
    (cycleBody s).derived = s.derived :=
  ⟨rfl, rfl, rfl, rfl, rfl, rfl, rfl⟩

/-- The invariant behind C8: a pending invocation's captured props always
equal the canvas backing dimensions and the observed size, and can only
exist once a surface has been derived. -/
def inv8 (s : AState) : Prop :=
  (s.derived = false → s.pending = none ∧ s.ctx = none) ∧
  (∀ p, s.pending = some p → s.ctx.isSome = true ∧
    p.w = s.canvasW ∧ p.h = s.canvasH ∧ p.w = s.width ∧ p.h = s.height)

theorem fireIfDue_cases (q : String) (env : Env) (s : AState) (t : Nat) :
    (fireIfDue q env s t = s) ∨
    (∃ p, s.pending = some p ∧ p.deadline ≤ t ∧
      fireIfDue q env s t =
        { s with pending := none,
                 draws := s.draws ++
                   [⟨p.id, p.deadline, p.w, p.h, prmAt q env p.deadline⟩],
                 held := if env.ret then Held.hfn p.id else Held.hundef }) := by
  unfold fireIfDue
  rcases hp : s.pending with _ | p
  · left
    rfl
  · by_cases hd : p.deadline ≤ t
    · right
      exact ⟨p, rfl, hd, if_pos hd⟩
    · left
      exact if_neg hd

theorem inv8_advanceTo (q : String) (env : Env) (s : AState) (t : Nat)
    (h : inv8 s) : inv8 (advanceTo q env s t) := by
  obtain ⟨h1, h2⟩ := h
  have hadv : advanceTo q env s t = { fireIfDue q env s t with time := max s.time t } := rfl
  rcases fireIfDue_cases q env s t with hc | ⟨p, hp, hd, hc⟩
  · rw [hadv, hc]
    exact ⟨fun hfd => h1 hfd, fun p hp => h2 p hp⟩
  · rw [hadv, hc]
    constructor
    · intro hfd
      obtain ⟨hpn, hcn⟩ := h1 hfd
      rw [hpn] at hp
      cases hp
    · intro p2 hp2
      cases hp2

theorem inv8_runCycle (d : Draft) (s : AState) (hc : s.ctx.isSome = true)
    (hd : s.derived = true) : inv8 (runCycle d s) := by
  have hf := effectCleanup_frame d s
  unfold runCycle
  split
  · constructor
    · intro hfd
      rw [hf.2.2.1, hd] at hfd
      cases hfd
    · intro p hp
      rw [hf.2.2.2.2.2.2.2.2.2.2.2] at hp
      cases hp
  · have hcb := cycleBody_fields (effectCleanup d s)
    constructor
    · intro hfd
      rw [hcb.2.2.2.2.2.2, hf.2.2.1, hd] at hfd
      cases hfd
    · intro p hp
      rw [hcb.1] at hp
      injection hp with hp
      subst hp
      refine ⟨by rw [hcb.2.2.2.2.2.1, hf.2.2.2.1]; exact hc, ?_, ?_, ?_, ?_⟩
      · rw [hcb.2.1]
      · rw [hcb.2.2.1]
      · rw [hcb.2.2.2.1]
      · rw [hcb.2.2.2.2.1]

theorem inv8_applyEv (d : Draft) (s : AState) (ev : Ev) (h : inv8 s) :
    inv8 (applyEv d s ev) := by
  obtain ⟨h1, h2⟩ := h
  cases ev with
  | mount e =>
      simp only [applyEv]
      split
      · exact ⟨h1, h2⟩
      · next hg =>
          have hder : s.derived = false := by
            cases hb : s.derived with
            | false => rfl
            | true => rw [hb] at hg; simp at hg
          obtain ⟨hpn, _⟩ := h1 hder
          cases e with
          | none =>
              constructor
              · intro hfd
                cases show (true : Bool) = false from hfd
              · intro p hp
                have hp2 : s.pending = some p := hp
                rw [hpn] at hp2
                cases hp2
          | some c => exact inv8_runCycle d _ rfl rfl
  | resize w h2b =>
      simp only [applyEv]
      split
      · exact ⟨h1, h2⟩
      · split
        · exact ⟨h1, h2⟩
        · split
          · next x hx =>
              have hder : s.derived = true := by
                cases hb : s.derived with
                | false =>
                    obtain ⟨_, hcn⟩ := h1 hb
                    rw [hcn] at hx
                    cases hx
                | true => rfl
              refine inv8_runCycle d _ ?_ hder
              show s.ctx.isSome = true
              rw [hx]
              rfl
          · next hx =>
              constructor
              · intro hfd
                obtain ⟨hpn, hcn⟩ := h1 hfd
                exact ⟨hpn, hcn⟩
              · intro p hp
                have hres := h2 p hp
                rw [hx] at hres
                cases hres.1
  | setElem e =>
      simp only [applyEv]
      split
      · exact ⟨h1, h2⟩
      · exact ⟨fun hfd => h1 hfd, fun p hp => h2 p hp⟩
  | unmount =>
      simp only [applyEv]
      split
      · exact ⟨h1, h2⟩
      · have hf := effectCleanup_frame d s
        constructor
        · intro hfd
          have hder : s.derived = false := by
            rw [show ({ effectCleanup d s with torn := true } : AState).derived
                = (effectCleanup d s).derived from rfl, hf.2.2.1] at hfd
            exact hfd
          exact ⟨by show (effectCleanup d s).pending = none; exact hf.2.2.2.2.2.2.2.2.2.2.2,
            by show (effectCleanup d s).ctx = none; rw [hf.2.2.2.1]; exact (h1 hder).2⟩
        · intro p hp
          rw [show ({ effectCleanup d s with torn := true } : AState).pending
              = (effectCleanup d s).pending from rfl, hf.2.2.2.2.2.2.2.2.2.2.2] at hp
          cases hp
  | tick => exact ⟨h1, h2⟩

theorem inv8_run (d : Draft) (q : String) (env : Env) (s : AState)
    (tr : List (Nat × Ev)) (h : inv8 s) : inv8 (runT d q env s tr) := by
  induction tr generalizing s with
  | nil => exact h
  | cons te tr ih =>
      exact ih _ (inv8_applyEv d (advanceTo q env s te.1) te.2
        (inv8_advanceTo q env s te.1 h))

/-- C8: In every reachable state of either draft, a pending drawing-method
invocation's captured `width`/`height` props equal the canvas backing-store
dimensions — which were assigned from the observed size in the same redraw
cycle that scheduled the invocation — and also still equal the current
observed size. -/
theorem c8_props_match_backing_dims (d : Draft) (q : String) (env : Env)
    (tr : List (Nat × Ev)) :
    ((runT d q env initState tr).pending.all fun p =>
      (p.w == (runT d q env initState tr).canvasW) &&
      (p.h == (runT d q env initState tr).canvasH) &&
      (p.w == (runT d q env initState tr).width) &&
      (p.h == (runT d q env initState tr).height)) = true := by
  have h := inv8_run d q env initState tr
    ⟨fun _ => ⟨rfl, rfl⟩, fun p hp => by cases hp⟩
  set X := runT d q env initState tr with hX
  rcases hp : X.pending with _ | p
  · rfl
  · obtain ⟨_, hw, hh, hw2, hh2⟩ := h.2 p hp
    simp only [Option.all]
    rw [← hw, ← hh, ← hw2, ← hh2]
    simp

/-! ## Characterisations of the cycle operations -/

theorem advanceTo_nofire (q : String) (env : Env) (s : AState) (t : Nat)
    (hnofire : ∀ p, s.pending = some p → ¬(p.deadline ≤ t)) :
    advanceTo q env s t = { s with time := max s.time t } := by
  rcases fireIfDue_cases q env s t with hc | ⟨p, hp, hd, hc⟩
  · show { fireIfDue q env s t with time := max s.time t } = _
    rw [hc]
  · exact absurd hd (hnofire p hp)

theorem effectCleanup_chars (d : Draft) (X : AState) :
    (effectCleanup d X = { X with pending := none, held := Held.hnull }) ∨
    (∃ k, X.held = Held.hfn k ∧ effectCleanup d X =
       { X with pending := none, held := Held.hnull,
                cleanups := X.cleanups ++ [(X.time, k)] }) ∨
    (d = Draft.inlineDraft ∧ X.held = Held.hundef ∧
     effectCleanup d X =
       { X with pending := none, held := Held.hnull, crashed := true }) := by
  unfold effectCleanup
  cases d with
  | inlineDraft =>
      cases hh : X.held with
      | hnull => exact Or.inl rfl
      | hundef => exact Or.inr (Or.inr ⟨rfl, rfl, rfl⟩)
      | hfn k => exact Or.inr (Or.inl ⟨k, rfl, rfl⟩)
  | debounceDraft => exact Or.inl rfl

theorem runCycle_crash (X : AState) (hh : X.held = Held.hundef) :
    runCycle Draft.inlineDraft X =
      { X with pending := none, held := Held.hnull, crashed := true } := by
  unfold runCycle effectCleanup
  rw [hh]
  exact if_pos rfl

theorem runCycle_chars (d : Draft) (X : AState)
    (hheld : d = Draft.inlineDraft → X.held ≠ Held.hundef)
    (hcr : X.crashed = false) :
    (runCycle d X).pending = some ⟨X.nextId, X.time + 50, X.width, X.height⟩ ∧
    (runCycle d X).nextId = X.nextId + 1 ∧
    (runCycle d X).held = Held.hnull ∧
    (runCycle d X).crashed = false ∧
    (runCycle d X).torn = X.torn ∧
    (runCycle d X).draws = X.draws ∧
    (runCycle d X).ctx = X.ctx ∧
    (runCycle d X).time = X.time ∧
    (runCycle d X).canvasW = X.width ∧
    (runCycle d X).canvasH = X.height ∧
    (runCycle d X).width = X.width ∧
    (runCycle d X).height = X.height ∧
    ((runCycle d X).cleanups = X.cleanups ∨
      ∃ k, X.held = Held.hfn k ∧
        (runCycle d X).cleanups = X.cleanups ++ [(X.time, k)]) := by
  rcases effectCleanup_chars d X with hec | ⟨k, hk, hec⟩ | ⟨hd, hk, _⟩
  · unfold runCycle
    rw [hec]
    split
    · next hcond =>
        have hx : X.crashed = true := hcond
        rw [hcr] at hx
        cases hx
    · exact ⟨rfl, rfl, rfl, hcr, rfl, rfl, rfl, rfl, rfl, rfl, rfl, rfl, Or.inl rfl⟩
  · unfold runCycle
    rw [hec]
    split
    · next hcond =>
        have hx : X.crashed = true := hcond
        rw [hcr] at hx
        cases hx
    · exact ⟨rfl, rfl, rfl, hcr, rfl, rfl, rfl, rfl, rfl, rfl, rfl, rfl,
        Or.inr ⟨k, hk, rfl⟩⟩
  · exact absurd hk (hheld hd)

/-- The effect of a size report `(w, h)` at time `t` that differs from the
current observed size, delivered while a surface is held, the hook is alive,
and no pending invocation is due at `t` or earlier: the previous cycle is
cancelled and a fresh invocation is scheduled 50 ms after `t`, capturing the
new size — which has also just been assigned to the canvas backing store. -/
theorem stepT_resize (d : Draft) (q : String) (env : Env) (s : AState)
    (t w h : Nat)
    (hcr : s.crashed = false) (hto : s.torn = false)
    (hx : s.ctx.isSome = true) (hheld : s.held ≠ Held.hundef)
    (ht : s.time ≤ t)
    (hnofire : ∀ p, s.pending = some p → ¬(p.deadline ≤ t))
    (hsz : ¬(w = s.width ∧ h = s.height)) :
    (stepT d q env s (t, Ev.resize w h)).pending = some ⟨s.nextId, t + 50, w, h⟩ ∧
    (stepT d q env s (t, Ev.resize w h)).nextId = s.nextId + 1 ∧
    (stepT d q env s (t, Ev.resize w h)).held = Held.hnull ∧
    (stepT d q env s (t, Ev.resize w h)).crashed = false ∧
    (stepT d q env s (t, Ev.resize w h)).torn = false ∧
    (stepT d q env s (t, Ev.resize w h)).draws = s.draws ∧
    (stepT d q env s (t, Ev.resize w h)).ctx = s.ctx ∧
    (stepT d q env s (t, Ev.resize w h)).time = t ∧
    (stepT d q env s (t, Ev.resize w h)).canvasW = w ∧
    (stepT d q env s (t, Ev.resize w h)).canvasH = h ∧
    (stepT d q env s (t, Ev.resize w h)).width = w ∧
    (stepT d q env s (t, Ev.resize w h)).height = h ∧
    ((stepT d q env s (t, Ev.resize w h)).cleanups = s.cleanups ∨
      ∃ k, s.held = Held.hfn k ∧
        (stepT d q env s (t, Ev.resize w h)).cleanups = s.cleanups ++ [(t, k)]) := by
  have hmax : max s.time t = t := Nat.max_eq_right ht
  have hadv := advanceTo_nofire q env s t hnofire
  have hstep : stepT d q env s (t, Ev.resize w h)
      = applyEv d { s with time := max s.time t } (Ev.resize w h) := by
    show applyEv d (advanceTo q env s t) (Ev.resize w h) = _
    rw [hadv]
  rw [hstep, hmax]
  simp only [applyEv]
  split
  · next hcond =>
      have hz : (s.crashed || s.torn) = true := hcond
      rw [hcr, hto] at hz
      cases hz
  · split
    · next c hc =>
        have hrc := runCycle_chars d { s with time := t, width := w, height := h }
          (fun _ => hheld) hcr
        refine ⟨hrc.1, hrc.2.1, hrc.2.2.1, hrc.2.2.2.1, ?_, hrc.2.2.2.2.2.1,
          ?_, hrc.2.2.2.2.2.2.2.1, hrc.2.2.2.2.2.2.2.2.1,
          hrc.2.2.2.2.2.2.2.2.2.1, hrc.2.2.2.2.2.2.2.2.2.2.1,
          hrc.2.2.2.2.2.2.2.2.2.2.2.1, ?_⟩
        · rw [hrc.2.2.2.2.1]
          exact hto
        · rw [hrc.2.2.2.2.2.2.1]
        · rcases hrc.2.2.2.2.2.2.2.2.2.2.2.2 with hcl | ⟨k, hk, hcl⟩
          · exact Or.inl hcl
          · exact Or.inr ⟨k, hk, hcl⟩
    · next hc =>
        have hc2 : s.ctx = none := hc
        rw [hc2] at hx
        cases hx

/-! ## C3: a superseded pending invocation never fires -/

theorem filter_append_single {α : Type} (l : List α) (a : α) (f : α → Bool)
    (hfa : f a = false) : (l ++ [a]).filter f = l.filter f := by
  rw [List.filter_append]
  simp [List.filter, hfa]

/-- Token `j` does not identify the current pending invocation or the held
clean-up routine, and is older than every token yet to be issued. -/
abbrev noId (j : Nat) (s : AState) : Prop :=
  (∀ p, s.pending = some p → p.id ≠ j) ∧ s.held ≠ Held.hfn j ∧ j < s.nextId

theorem noId_advanceTo (q : String) (env : Env) (s : AState) (t : Nat)
    (j : Nat) (h : noId j s) :
    noId j (advanceTo q env s t) ∧
    (advanceTo q env s t).draws.filter (fun dc => dc.id == j)
      = s.draws.filter (fun dc => dc.id == j) ∧
    (advanceTo q env s t).cleanups = s.cleanups := by
  obtain ⟨h1, h2, h3⟩ := h
  rcases fireIfDue_cases q env s t with hc | ⟨p, hp, hd, hc⟩
  · have hA : advanceTo q env s t = { s with time := max s.time t } := by
      show { fireIfDue q env s t with time := max s.time t } = _
      rw [hc]
    rw [hA]
    exact ⟨⟨fun p hp => h1 p hp, h2, h3⟩, rfl, rfl⟩
  · have hA : advanceTo q env s t =
        { s with time := max s.time t, pending := none,
                 draws := s.draws ++
                   [⟨p.id, p.deadline, p.w, p.h, prmAt q env p.deadline⟩],
                 held := if env.ret then Held.hfn p.id else Held.hundef } := by
      show { fireIfDue q env s t with time := max s.time t } = _
      rw [hc]
    rw [hA]
    have hpj : p.id ≠ j := h1 p hp
    refine ⟨⟨(fun p2 hp2 => by cases hp2), ?_, h3⟩, ?_, rfl⟩
    · show (if env.ret then Held.hfn p.id else Held.hundef) ≠ Held.hfn j
      by_cases hr : env.ret = true
      · rw [if_pos hr]
        intro hcon
        injection hcon with hcon
        exact hpj hcon
      · rw [if_neg hr]
        intro hcon
        cases hcon
    · show (s.draws ++ [(⟨p.id, p.deadline, p.w, p.h, prmAt q env p.deadline⟩ :
          DrawCall)]).filter (fun dc => dc.id == j) = s.draws.filter (fun dc => dc.id == j)
      apply filter_append_single
      show (p.id == j) = false
      exact beq_eq_false_iff_ne.mpr hpj

theorem noId_runCycle (d : Draft) (X : AState) (j : Nat)
    (hcr : X.crashed = false) (hheld : X.held ≠ Held.hfn j) (hid : j < X.nextId) :
    (∀ p, (runCycle d X).pending = some p → p.id ≠ j) ∧
    (runCycle d X).held ≠ Held.hfn j ∧ j < (runCycle d X).nextId ∧
    (runCycle d X).draws = X.draws ∧
    (runCycle d X).cleanups.filter (fun ce => ce.2 == j)
      = X.cleanups.filter (fun ce => ce.2 == j) := by
  by_cases hOK : d = Draft.inlineDraft → X.held ≠ Held.hundef
  · have hch := runCycle_chars d X hOK hcr
    refine ⟨?_, ?_, ?_, hch.2.2.2.2.2.1, ?_⟩
    · intro p hp
      rw [hch.1] at hp
      injection hp with hp
      rw [← hp]
      show X.nextId ≠ j
      omega
    · rw [hch.2.2.1]
      intro hcon
      cases hcon
    · rw [hch.2.1]
      omega
    · rcases hch.2.2.2.2.2.2.2.2.2.2.2.2 with hcl | ⟨k, hk, hcl⟩
      · rw [hcl]
      · rw [hcl]
        apply filter_append_single
        show (k == j) = false
        refine beq_eq_false_iff_ne.mpr ?_
        intro he
        rw [he] at hk
        exact hheld hk
  · push_neg at hOK
    obtain ⟨hd, hu⟩ := hOK
    rw [hd, runCycle_crash X hu]
    refine ⟨(fun p hp => by cases hp), ?_, hid, rfl, rfl⟩
    intro hcon
    cases hcon

theorem noId_applyEv (d : Draft) (s : AState) (ev : Ev) (j : Nat)
    (h : noId j s) :
    noId j (applyEv d s ev) ∧
    (applyEv d s ev).cleanups.filter (fun ce => ce.2 == j)
      = s.cleanups.filter (fun ce => ce.2 == j) := by
  obtain ⟨h1, h2, h3⟩ := h
  cases ev with
  | mount e =>
      simp only [applyEv]
      split
      · exact ⟨⟨h1, h2, h3⟩, rfl⟩
      · next hg =>
          have hcr : s.crashed = false := by
            cases hb : s.crashed with
            | false => rfl
            | true => rw [hb] at hg; simp at hg
          cases e with
          | none => exact ⟨⟨fun p hp => h1 p hp, h2, h3⟩, rfl⟩
          | some c =>
              have hrc := noId_runCycle d
                { s with elem := some c, derived := true, ctx := some c } j hcr h2 h3
              exact ⟨⟨hrc.1, hrc.2.1, hrc.2.2.1⟩, hrc.2.2.2.2⟩
  | resize w h2b =>
      simp only [applyEv]
      split
      · exact ⟨⟨h1, h2, h3⟩, rfl⟩
      · next hg =>
          have hcr : s.crashed = false := by
            cases hb : s.crashed with
            | false => rfl
            | true => rw [hb] at hg; simp at hg
          split
          · exact ⟨⟨h1, h2, h3⟩, rfl⟩
          · split
            · next c hc =>
                have hrc := noId_runCycle d
                  { s with width := w, height := h2b } j hcr h2 h3
                exact ⟨⟨hrc.1, hrc.2.1, hrc.2.2.1⟩, hrc.2.2.2.2⟩
            · next hc => exact ⟨⟨fun p hp => h1 p hp, h2, h3⟩, rfl⟩
  | setElem e =>
      simp only [applyEv]
      split
      · exact ⟨⟨h1, h2, h3⟩, rfl⟩
      · exact ⟨⟨fun p hp => h1 p hp, h2, h3⟩, rfl⟩
  | unmount =>
      simp only [applyEv]
      split
      · exact ⟨⟨h1, h2, h3⟩, rfl⟩
      · rcases effectCleanup_chars d s with hec | ⟨k, hk, hec⟩ | ⟨_, _, hec⟩
        · rw [hec]
          exact ⟨⟨(fun p hp => by cases hp), (by intro hcon; cases hcon), h3⟩, rfl⟩
        · rw [hec]
          refine ⟨⟨(fun p hp => by cases hp), (by intro hcon; cases hcon), h3⟩, ?_⟩
          show (s.cleanups ++ [(s.time, k)]).filter (fun ce => ce.2 == j)
            = s.cleanups.filter (fun ce => ce.2 == j)
          apply filter_append_single
          show (k == j) = false
          refine beq_eq_false_iff_ne.mpr ?_
          intro he
          rw [he] at hk
          exact h2 hk
        · rw [hec]
          exact ⟨⟨(fun p hp => by cases hp), (by intro hcon; cases hcon), h3⟩, rfl⟩
  | tick => exact ⟨⟨h1, h2, h3⟩, rfl⟩

theorem noId_stepT (d : Draft) (q : String) (env : Env) (s : AState)
    (te : Nat × Ev) (j : Nat) (h : noId j s) :
    noId j (stepT d q env s te) ∧
    (stepT d q env s te).draws.filter (fun dc => dc.id == j)
      = s.draws.filter (fun dc => dc.id == j) ∧
    (stepT d q env s te).cleanups.filter (fun ce => ce.2 == j)
      = s.cleanups.filter (fun ce => ce.2 == j) := by
  obtain ⟨t, ev⟩ := te
  have hadv := noId_advanceTo q env s t j h
  have happ := noId_applyEv d (advanceTo q env s t) ev j hadv.1
  refine ⟨happ.1, ?_, ?_⟩
  · show (applyEv d (advanceTo q env s t) ev).draws.filter _ = _
    rw [applyEv_draws, hadv.2.1]
  · show (applyEv d (advanceTo q env s t) ev).cleanups.filter _ = _
    rw [happ.2, hadv.2.2]

theorem noId_runT (d : Draft) (q : String) (env : Env) (s : AState)
    (tr : List (Nat × Ev)) (j : Nat) (h : noId j s) :
    noId j (runT d q env s tr) ∧
    (runT d q env s tr).draws.filter (fun dc => dc.id == j)
      = s.draws.filter (fun dc => dc.id == j) ∧
    (runT d q env s tr).cleanups.filter (fun ce => ce.2 == j)
      = s.cleanups.filter (fun ce => ce.2 == j) := by
  induction tr generalizing s with
  | nil => exact ⟨h, rfl, rfl⟩
  | cons te tr ih =>
      have hstep := noId_stepT d q env s te j h
      have hrest := ih (stepT d q env s te) hstep.1
      rw [runT_cons]
      exact ⟨hrest.1, by rw [hrest.2.1, hstep.2.1], by rw [hrest.2.2, hstep.2.2]⟩

/-- C3: At most one invocation is pending at a time (the state holds a
single optional timeout); scheduling a redraw cycle B — here a size report
at time `t` — while cycle A's invocation is still pending (`t` is before
A's deadline) cancels A and schedules B as the unique new pending
invocation.  Afterwards, however the run continues, A's drawing-method body
never executes (the draw log never gains an entry carrying A's token) and no
clean-up routine originating from A is ever captured or invoked (the
clean-up log never gains an entry carrying A's token). -/
theorem c3_superseded_invocation_never_fires (d : Draft) (q : String)
    (env : Env) (s : AState) (p : Pend) (t w h : Nat)
    (hp : s.pending = some p) (hcr : s.crashed = false) (hto : s.torn = false)
    (hctx : s.ctx.isSome = true) (hheld : s.held ≠ Held.hundef)
    (hh2 : s.held ≠ Held.hfn p.id) (hid : p.id < s.nextId)
    (ht : s.time ≤ t) (htd : t < p.deadline)
    (hsz : ¬(w = s.width ∧ h = s.height)) (tr : List (Nat × Ev)) :
    (stepT d q env s (t, Ev.resize w h)).pending
      = some ⟨s.nextId, t + 50, w, h⟩ ∧
    (runT d q env (stepT d q env s (t, Ev.resize w h)) tr).draws.filter
        (fun dc => dc.id == p.id)
      = s.draws.filter (fun dc => dc.id == p.id) ∧
    (runT d q env (stepT d q env s (t, Ev.resize w h)) tr).cleanups.filter
        (fun ce => ce.2 == p.id)
      = s.cleanups.filter (fun ce => ce.2 == p.id) := by
  have hnofire : ∀ p2, s.pending = some p2 → ¬(p2.deadline ≤ t) := by
    intro p2 hp2
    rw [hp] at hp2
    injection hp2 with hp2
    rw [← hp2]
    omega
  have hres := stepT_resize d q env s t w h hcr hto hctx hheld ht hnofire hsz
  have hnoid : noId p.id (stepT d q env s (t, Ev.resize w h)) := by
    refine ⟨?_, ?_, ?_⟩
    · intro p2 hp2
      rw [hres.1] at hp2
      injection hp2 with hp2
      rw [← hp2]
      show s.nextId ≠ p.id
      omega
    · rw [hres.2.2.1]
      intro hcon
      cases hcon
    · rw [hres.2.1]
      omega
  have hrun := noId_runT d q env (stepT d q env s (t, Ev.resize w h)) tr p.id hnoid
  refine ⟨hres.1, ?_, ?_⟩
  · rw [hrun.2.1, hres.2.2.2.2.2.1]
  · rw [hrun.2.2]
    rcases hres.2.2.2.2.2.2.2.2.2.2.2.2 with hcl | ⟨k, hk, hcl⟩
    · rw [hcl]
    · rw [hcl]
      apply filter_append_single
      show (k == p.id) = false
      refine beq_eq_false_iff_ne.mpr ?_
      intro he
      rw [he] at hk
      exact hh2 hk

/-! ## C2: a burst of size updates coalesces into one draw -/

theorem fireIfDue_fires (q : String) (env : Env) (s : AState) (t : Nat)
    (p : Pend) (hp : s.pending = some p) (hd : p.deadline ≤ t) :
    fireIfDue q env s t =
      { s with pending := none,
               draws := s.draws ++
                 [⟨p.id, p.deadline, p.w, p.h, prmAt q env p.deadline⟩],
               held := if env.ret then Held.hfn p.id else Held.hundef } := by
  unfold fireIfDue
  rw [hp]
  exact if_pos hd

/-- A burst: each update arrives strictly after the previous one, strictly
within the previous update's 50 ms quiescence window, and reports a size
different from the previous one. -/
def sizeChain : Nat → Nat → Nat → List (Nat × Nat × Nat) → Bool
  | _, _, _, [] => true
  | t0, w0, h0, (t, w, h) :: rest =>
      decide (t0 < t) && decide (t < t0 + 50) &&
      !(decide (w = w0) && decide (h = h0)) && sizeChain t w h rest

/-- The burst as a trace of size-report events. -/
def burstEvents : List (Nat × Nat × Nat) → List (Nat × Ev) :=
  List.map (fun x => (x.1, Ev.resize x.2.1 x.2.2))

/-- The last update of a nonempty burst. -/
def lastTriple : Nat × Nat × Nat → List (Nat × Nat × Nat) → Nat × Nat × Nat
  | x, [] => x
  | _, y :: rest => lastTriple y rest

theorem burst_run (d : Draft) (q : String) (env : Env) :
    ∀ (rest : List (Nat × Nat × Nat)) (s : AState) (i t w h : Nat),
    s.crashed = false → s.torn = false → s.ctx.isSome = true →
    s.held = Held.hnull →
    s.time = t → s.width = w → s.height = h →
    s.pending = some ⟨i, t + 50, w, h⟩ →
    s.nextId = i + 1 →
    sizeChain t w h rest = true →
    ∀ T, (lastTriple (t, w, h) rest).1 + 50 ≤ T →
    (runT d q env s (burstEvents rest ++ [(T, Ev.tick)])).draws
      = s.draws ++ [⟨i + rest.length, (lastTriple (t, w, h) rest).1 + 50,
          (lastTriple (t, w, h) rest).2.1, (lastTriple (t, w, h) rest).2.2,
          prmAt q env ((lastTriple (t, w, h) rest).1 + 50)⟩] := by
  intro rest
  induction rest with
  | nil =>
      intro s i t w h hcr hto hctx hheld htime hw hhh hp hnext hchain T hT
      simp only [lastTriple] at hT ⊢
      show (stepT d q env s (T, Ev.tick)).draws = _
      have hstep : stepT d q env s (T, Ev.tick) = advanceTo q env s T := rfl
      rw [hstep]
      show (fireIfDue q env s T).draws = _
      rw [fireIfDue_fires q env s T ⟨i, t + 50, w, h⟩ hp hT]
      simp
  | cons head rest ih =>
      obtain ⟨t2, w2, h2⟩ := head
      intro s i t w h hcr hto hctx hheld htime hw hhh hp hnext hchain T hT
      simp only [sizeChain, Bool.and_eq_true, decide_eq_true_eq] at hchain
      obtain ⟨⟨⟨hlt1, hlt2⟩, hszB⟩, hchain2⟩ := hchain
      have hszP : ¬(w2 = w ∧ h2 = h) := by
        intro hcon
        rw [hcon.1, hcon.2] at hszB
        simp at hszB
      have hnofire : ∀ p2, s.pending = some p2 → ¬(p2.deadline ≤ t2) := by
        intro p2 hp2
        rw [hp] at hp2
        injection hp2 with hp2
        rw [← hp2]
        show ¬(t + 50 ≤ t2)
        omega
      have hszS : ¬(w2 = s.width ∧ h2 = s.height) := by
        rw [hw, hhh]
        exact hszP
      have htS : s.time ≤ t2 := by
        rw [htime]
        omega
      have hheldS : s.held ≠ Held.hundef := by
        rw [hheld]
        intro hcon
        cases hcon
      have hres := stepT_resize d q env s t2 w2 h2 hcr hto hctx hheldS htS hnofire hszS
      have hpend2 : (stepT d q env s (t2, Ev.resize w2 h2)).pending
          = some ⟨i + 1, t2 + 50, w2, h2⟩ := by
        rw [hres.1, hnext]
      have hnext2 : (stepT d q env s (t2, Ev.resize w2 h2)).nextId = (i + 1) + 1 := by
        rw [hres.2.1, hnext]
      have hctx2 : (stepT d q env s (t2, Ev.resize w2 h2)).ctx.isSome = true := by
        rw [hres.2.2.2.2.2.2.1]
        exact hctx
      have hmain := ih (stepT d q env s (t2, Ev.resize w2 h2)) (i + 1) t2 w2 h2
        hres.2.2.2.1 hres.2.2.2.2.1 hctx2 hres.2.2.1
        hres.2.2.2.2.2.2.2.1 hres.2.2.2.2.2.2.2.2.2.2.1 hres.2.2.2.2.2.2.2.2.2.2.2.1
        hpend2 hnext2 hchain2 T hT
      rw [show burstEvents ((t2, w2, h2) :: rest)
          = (t2, Ev.resize w2 h2) :: burstEvents rest from rfl,
        List.cons_append, runT_cons, hmain, hres.2.2.2.2.2.1]
      have harith : i + 1 + rest.length = i + ((t2, w2, h2) :: rest).length := by
        simp [List.length_cons]
        omega
      rw [harith]
      rfl

/-- C2: From any live state with a derived surface (and any pending
invocation not yet due), a burst of `N ≥ 1` size updates — each arriving
strictly within the 50 ms quiescence window of the previous one and
reporting a changed size — produces exactly one drawing-method invocation
after the burst: it fires 50 ms after the last update and its `width` and
`height` props are those of the last update. -/
theorem c2_burst_coalesces (d : Draft) (q : String) (env : Env) (s : AState)
    (t1 w1 h1 : Nat) (rest : List (Nat × Nat × Nat)) (T : Nat)
    (hcr : s.crashed = false) (hto : s.torn = false)
    (hctx : s.ctx.isSome = true) (hheld : s.held ≠ Held.hundef)
    (ht : s.time ≤ t1)
    (hpend : (s.pending.all fun p => decide (t1 < p.deadline)) = true)
    (hsz : ¬(w1 = s.width ∧ h1 = s.height))
    (hchain : sizeChain t1 w1 h1 rest = true)
    (hT : (lastTriple (t1, w1, h1) rest).1 + 50 ≤ T) :
    (runT d q env s (burstEvents ((t1, w1, h1) :: rest) ++ [(T, Ev.tick)])).draws
      = s.draws ++ [⟨s.nextId + rest.length,
          (lastTriple (t1, w1, h1) rest).1 + 50,
          (lastTriple (t1, w1, h1) rest).2.1, (lastTriple (t1, w1, h1) rest).2.2,
          prmAt q env ((lastTriple (t1, w1, h1) rest).1 + 50)⟩] := by
  have hnofire : ∀ p, s.pending = some p → ¬(p.deadline ≤ t1) := by
    intro p hp
    rw [hp] at hpend
    simp only [Option.all, decide_eq_true_eq] at hpend
    omega
  have hres := stepT_resize d q env s t1 w1 h1 hcr hto hctx hheld ht hnofire hsz
  have hpend2 : (stepT d q env s (t1, Ev.resize w1 h1)).pending
      = some ⟨s.nextId, t1 + 50, w1, h1⟩ := hres.1
  have hnext2 : (stepT d q env s (t1, Ev.resize w1 h1)).nextId = s.nextId + 1 :=
    hres.2.1
  have hctx2 : (stepT d q env s (t1, Ev.resize w1 h1)).ctx.isSome = true := by
    rw [hres.2.2.2.2.2.2.1]
    exact hctx
  have hmain := burst_run d q env rest (stepT d q env s (t1, Ev.resize w1 h1))
    s.nextId t1 w1 h1
    hres.2.2.2.1 hres.2.2.2.2.1 hctx2 hres.2.2.1
    hres.2.2.2.2.2.2.2.1 hres.2.2.2.2.2.2.2.2.2.2.1 hres.2.2.2.2.2.2.2.2.2.2.2.1
    hpend2 hnext2 hchain T hT
  rw [show burstEvents ((t1, w1, h1) :: rest)
      = (t1, Ev.resize w1 h1) :: burstEvents rest from rfl,
    List.cons_append, runT_cons, hmain, hres.2.2.2.2.2.1]

/-- Witness for C2: the spec's rapid-resize scenario.  After mounting at
time 0, the observed size reports (300,150), (301,150), (305,152) at times
1, 6, 11 — each within 10 ms of the previous — form a valid burst, and the
whole run performs exactly one additional drawing-method call, at time 61,
with props 305 × 152. -/
theorem c2_burst_witness :
    sizeChain 1 300 150 [(6, 301, 150), (11, 305, 152)] = true ∧
    (runT Draft.inlineDraft sourceQuery env0
        (runT Draft.inlineDraft sourceQuery env0 initState [(0, Ev.mount (some 1))])
        (burstEvents ((1, 300, 150) :: [(6, 301, 150), (11, 305, 152)]) ++
          [(100, Ev.tick)])).draws
      = (runT Draft.inlineDraft sourceQuery env0 initState
          [(0, Ev.mount (some 1))]).draws ++ [⟨3, 61, 305, 152, true⟩] := by
  refine ⟨by decide, ?_⟩
  exact c2_burst_coalesces Draft.inlineDraft sourceQuery env0
    (runT Draft.inlineDraft sourceQuery env0 initState [(0, Ev.mount (some 1))])
    1 300 150 [(6, 301, 150), (11, 305, 152)] 100
    (by decide) (by decide) (by decide) (by decide) (by decide) (by decide)
    (by decide) (by decide) (by decide)

/-- Witness for C3: mount at time 0 schedules invocation A with token 0 and
deadline 50; a resize to 300 × 150 at time 10 — while A is still pending —
cancels A and schedules B = token 1, deadline 60; running on to time 200
(which fires B) leaves the draw log and clean-up log without any entry
carrying A's token. -/
theorem c3_superseded_witness :
    (runT Draft.inlineDraft sourceQuery env0 initState
        [(0, Ev.mount (some 1))]).pending = some ⟨0, 50, 0, 0⟩ ∧
    (stepT Draft.inlineDraft sourceQuery env0
        (runT Draft.inlineDraft sourceQuery env0 initState [(0, Ev.mount (some 1))])
        (10, Ev.resize 300 150)).pending = some ⟨1, 60, 300, 150⟩ ∧
    (runT Draft.inlineDraft sourceQuery env0
        (stepT Draft.inlineDraft sourceQuery env0
          (runT Draft.inlineDraft sourceQuery env0 initState [(0, Ev.mount (some 1))])
          (10, Ev.resize 300 150)) [(200, Ev.tick)]).draws.filter
        (fun dc => dc.id == (0 : Nat))
      = (runT Draft.inlineDraft sourceQuery env0 initState
          [(0, Ev.mount (some 1))]).draws.filter (fun dc => dc.id == (0 : Nat)) ∧
    (runT Draft.inlineDraft sourceQuery env0
        (stepT Draft.inlineDraft sourceQuery env0
          (runT Draft.inlineDraft sourceQuery env0 initState [(0, Ev.mount (some 1))])
          (10, Ev.resize 300 150)) [(200, Ev.tick)]).cleanups.filter
        (fun ce => ce.2 == (0 : Nat))
      = (runT Draft.inlineDraft sourceQuery env0 initState
          [(0, Ev.mount (some 1))]).cleanups.filter (fun ce => ce.2 == (0 : Nat)) := by
  have happ := c3_superseded_invocation_never_fires Draft.inlineDraft sourceQuery env0
    (runT Draft.inlineDraft sourceQuery env0 initState [(0, Ev.mount (some 1))])
    ⟨0, 50, 0, 0⟩ 10 300 150
    (by decide) (by decide) (by decide) (by decide) (by decide) (by decide)
    (by decide) (by decide) (by decide) (by decide) [(200, Ev.tick)]
  exact ⟨by decide, happ.1, happ.2.1, happ.2.2⟩

/-! ## C5: how far the two drafts agree -/

/-- Forget the clean-up log — the one observable on which the two drafts
can differ when every draw returns a clean-up routine. -/
def scrub (s : AState) : AState := { s with cleanups := [] }

theorem c5_advance (q : String) (env : Env) (henv : env.ret = true)
    (tm : Nat) (e0 : Option Nat) (dv : Bool) (c0 : Option Nat)
    (cw ch w0 h0 : Nat) (p0 : Option Pend) (hl : Held) (to0 : Bool) (n0 : Nat)
    (ds : List DrawCall) (t : Nat) (hheld : hl ≠ Held.hundef) :
    ∃ tm2 p2 hl2 ds2, hl2 ≠ Held.hundef ∧
      ∀ cs : List (Nat × Nat),
        advanceTo q env
            (AState.mk tm e0 dv c0 cw ch w0 h0 p0 hl false to0 n0 ds cs) t
          = AState.mk tm2 e0 dv c0 cw ch w0 h0 p2 hl2 false to0 n0 ds2 cs := by
  unfold advanceTo fireIfDue
  cases p0 with
  | none => exact ⟨max tm t, none, hl, ds, hheld, fun cs => rfl⟩
  | some p =>
      by_cases hd : p.deadline ≤ t
      · refine ⟨max tm t, none, Held.hfn p.id,
          ds ++ [⟨p.id, p.deadline, p.w, p.h, prmAt q env p.deadline⟩],
          (by intro hcon; cases hcon), fun cs => ?_⟩
        dsimp only
        rw [if_pos hd, henv]
        rfl
      · refine ⟨max tm t, some p, hl, ds, hheld, fun cs => ?_⟩
        dsimp only
        rw [if_neg hd]

theorem c5_applyEv (tm : Nat) (e0 : Option Nat) (dv : Bool) (c0 : Option Nat)
    (cw ch w0 h0 : Nat) (p0 : Option Pend) (hl : Held) (to0 : Bool) (n0 : Nat)
    (ds : List DrawCall) (cs1 cs2 : List (Nat × Nat)) (ev : Ev)
    (hheld : hl ≠ Held.hundef) :
    scrub (applyEv Draft.inlineDraft
        (AState.mk tm e0 dv c0 cw ch w0 h0 p0 hl false to0 n0 ds cs1) ev)
      = scrub (applyEv Draft.debounceDraft
        (AState.mk tm e0 dv c0 cw ch w0 h0 p0 hl false to0 n0 ds cs2) ev) ∧
    (applyEv Draft.inlineDraft
        (AState.mk tm e0 dv c0 cw ch w0 h0 p0 hl false to0 n0 ds cs1) ev).crashed
      = false ∧
    (applyEv Draft.inlineDraft
        (AState.mk tm e0 dv c0 cw ch w0 h0 p0 hl false to0 n0 ds cs1) ev).held
      ≠ Held.hundef := by
  cases ev with
  | mount e =>
      cases to0 with
      | true => exact ⟨rfl, rfl, hheld⟩
      | false =>
          cases dv with
          | true => exact ⟨rfl, rfl, hheld⟩
          | false =>
              cases e with
              | none => exact ⟨rfl, rfl, hheld⟩
              | some c =>
                  cases hl with
                  | hnull => exact ⟨rfl, rfl, (by intro hcon; cases hcon)⟩
                  | hundef => exact absurd rfl hheld
                  | hfn k => exact ⟨rfl, rfl, (by intro hcon; cases hcon)⟩
  | resize w h =>
      cases to0 with
      | true => exact ⟨rfl, rfl, hheld⟩
      | false =>
          dsimp only [applyEv]
          by_cases hsz : (w = w0 ∧ h = h0)
          · rw [if_pos hsz, if_pos hsz]
            exact ⟨rfl, rfl, hheld⟩
          · rw [if_neg hsz, if_neg hsz]
            cases c0 with
            | none => exact ⟨rfl, rfl, hheld⟩
            | some c =>
                cases hl with
                | hnull => exact ⟨rfl, rfl, (by intro hcon; cases hcon)⟩
                | hundef => exact absurd rfl hheld
                | hfn k => exact ⟨rfl, rfl, (by intro hcon; cases hcon)⟩
  | setElem e =>
      cases to0 with
      | true => exact ⟨rfl, rfl, hheld⟩
      | false => exact ⟨rfl, rfl, hheld⟩
  | unmount =>
      cases to0 with
      | true => exact ⟨rfl, rfl, hheld⟩
      | false =>
          cases hl with
          | hnull => exact ⟨rfl, rfl, (by intro hcon; cases hcon)⟩
          | hundef => exact absurd rfl hheld
          | hfn k => exact ⟨rfl, rfl, (by intro hcon; cases hcon)⟩
  | tick => exact ⟨rfl, rfl, hheld⟩

theorem c5_scrub_run (q : String) (env : Env) (henv : env.ret = true) :
    ∀ (tr : List (Nat × Ev)) (s1 s2 : AState),
    scrub s1 = scrub s2 → s1.crashed = false → s1.held ≠ Held.hundef →
    scrub (runT Draft.inlineDraft q env s1 tr)
      = scrub (runT Draft.debounceDraft q env s2 tr) := by
  intro tr
  induction tr with
  | nil =>
      intro s1 s2 hs _ _
      exact hs
  | cons te tr ih =>
      intro s1 s2 hs hcr hheld
      obtain ⟨t, ev⟩ := te
      obtain ⟨tm, e0, dv, c0, cw, ch, w0, h0, p0, hl, cr0, to0, n0, ds, cs1⟩ := s1
      obtain ⟨tmb, e0b, dvb, c0b, cwb, chb, w0b, h0b, p0b, hlb, cr0b, to0b, n0b,
        dsb, cs2⟩ := s2
      simp only [scrub, AState.mk.injEq, and_true] at hs
      obtain ⟨h1, h2, h3, h4, h5, h6, h7, h8, h9, h10, h11, h12, h13, h14⟩ := hs
      subst h1 h2 h3 h4 h5 h6 h7 h8 h9 h10 h11 h12 h13 h14
      have hcr0 : cr0 = false := hcr
      subst hcr0
      have hheld0 : hl ≠ Held.hundef := hheld
      obtain ⟨tma, p2a, hl2a, ds2a, hh2, hA⟩ :=
        c5_advance q env henv tm e0 dv c0 cw ch w0 h0 p0 hl to0 n0 ds t hheld0
      have e1 : stepT Draft.inlineDraft q env
          (AState.mk tm e0 dv c0 cw ch w0 h0 p0 hl false to0 n0 ds cs1) (t, ev)
          = applyEv Draft.inlineDraft
            (AState.mk tma e0 dv c0 cw ch w0 h0 p2a hl2a false to0 n0 ds2a cs1) ev := by
        show applyEv Draft.inlineDraft (advanceTo q env _ t) ev = _
        rw [hA cs1]
      have e2 : stepT Draft.debounceDraft q env
          (AState.mk tm e0 dv c0 cw ch w0 h0 p0 hl false to0 n0 ds cs2) (t, ev)
          = applyEv Draft.debounceDraft
            (AState.mk tma e0 dv c0 cw ch w0 h0 p2a hl2a false to0 n0 ds2a cs2) ev := by
        show applyEv Draft.debounceDraft (advanceTo q env _ t) ev = _
        rw [hA cs2]
      rw [runT_cons, runT_cons, e1, e2]
      have hAp := c5_applyEv tma e0 dv c0 cw ch w0 h0 p2a hl2a to0 n0
        ds2a cs1 cs2 ev hh2
      exact ih _ _ hAp.1 hAp.2.1 hAp.2.2

/-- C5 (amended): provided the drawing method always returns a Cleanup
Routine and the hook is in a live, uncrashed state, the two drafts invoke
the Drawing Routine at exactly the same points — their draw logs agree on
every trigger trace.  They are *not* equivalent on the Cleanup Routine: the
inline draft invokes a captured clean-up before the next cycle and at
teardown, while the `debounceDraw` draft never invokes it at all. -/
theorem c5_drafts_agree_on_draws (q : String) (env : Env) (s : AState)
    (tr : List (Nat × Ev)) (henv : env.ret = true)
    (hcr : s.crashed = false) (hheld : s.held ≠ Held.hundef) :
    (runT Draft.inlineDraft q env s tr).draws
      = (runT Draft.debounceDraft q env s tr).draws := by
  have h := c5_scrub_run q env henv tr s s rfl hcr hheld
  have h2 : (scrub (runT Draft.inlineDraft q env s tr)).draws
      = (scrub (runT Draft.debounceDraft q env s tr)).draws := congrArg AState.draws h
  exact h2

/-- Witness for C5's amended claim: with a drawing method that always
returns a clean-up routine, the two drafts' draw logs agree on a concrete
mount-resize-tick trace. -/
theorem c5_drafts_agree_witness :
    env0.ret = true ∧ initState.crashed = false ∧
    initState.held ≠ Held.hundef ∧
    (runT Draft.inlineDraft sourceQuery env0 initState
        [(0, Ev.mount (some 1)), (60, Ev.resize 300 150), (200, Ev.tick)]).draws
      = (runT Draft.debounceDraft sourceQuery env0 initState
        [(0, Ev.mount (some 1)), (60, Ev.resize 300 150), (200, Ev.tick)]).draws :=
  ⟨rfl, rfl, (by decide),
    c5_drafts_agree_on_draws sourceQuery env0 initState
      [(0, Ev.mount (some 1)), (60, Ev.resize 300 150), (200, Ev.tick)]
      rfl rfl (by decide)⟩

end DrawingCanvas
